import Mathlib

/-!
Verification of the budplate template compiler (`src/lib.rs`) against its
natural-language specification.

The embedding works over `List Char`.  The Rust code slices `&str` at byte
offsets computed by pointer arithmetic; all delimiter and marker characters
(`{{`, `}}`, `=`, `:=`, `-`) are ASCII, so character offsets into the list of
characters are a faithful rendering of those byte offsets, and concatenation of
the character lists mirrors concatenation of the UTF-8 byte slices.

Definitions named after the source (`parse`, `to_bud_source`, `render_with`,
`HtmlEncoding.encode`, ...) are translated from `src/lib.rs`.  The external
`budlang` evaluator is not part of this repository; the few definitions whose
doc comment starts with "Modelled from the spec:" stand in for it.
-/

/-- `Error` from `src/lib.rs` (the misspelling `UnexpectedEndBrances` is the
source's own). -/
inductive Error where
  | MissingEndBraces
  | UnexpectedEndBrances
deriving DecidableEq, Repr

/-- `WhitespaceTrimming` from `src/lib.rs`. -/
structure WhitespaceTrimming where
  trim_before : Bool
  trim_after : Bool
deriving DecidableEq, Repr

/-- `SegmentKind` from `src/lib.rs`.  `Expression` carries the `safe` flag:
`safe = true` is the source's `SafeExpression` (marker `:=`), `safe = false`
its `UnsafeExpression` (marker `=`). -/
inductive SegmentKind where
  | Raw
  | Statement (trimming : WhitespaceTrimming)
  | Expression (trimming : WhitespaceTrimming) (safe : Bool)
deriving DecidableEq, Repr

/-- `Segment` from `src/lib.rs`: a kind plus a half-open range
`start..stop` into the template text. -/
structure Segment where
  kind : SegmentKind
  start : Nat
  stop : Nat
deriving DecidableEq, Repr

/-- Rust's `str::split` with a fixed two-character pattern, on character
lists: helper returning the first piece and the remaining pieces.  Matches are
found left to right and do not overlap, and the result always has at least one
piece (the pair's first component), exactly as Rust's `split` always yields a
first item. -/
def splitOn2' (a b : Char) : List Char → List Char × List (List Char)
  | [] => ([], [])
  | [x] => ([x], [])
  | x :: y :: rest =>
    if x = a ∧ y = b then
      ([], (splitOn2' a b rest).1 :: (splitOn2' a b rest).2)
    else
      ((x :: (splitOn2' a b (y :: rest)).1), (splitOn2' a b (y :: rest)).2)

/-- Rust's `str::split` with a two-character pattern: list of pieces. -/
def splitOn2 (a b : Char) (xs : List Char) : List (List Char) :=
  (splitOn2' a b xs).1 :: (splitOn2' a b xs).2

/-- The strings of `Template::parse`'s internal `CodeKind`. -/
inductive CodeKind where
  | SafeExpression
  | UnsafeExpression
  | Statement
deriving DecidableEq, Repr

/-- The two `strip_prefix` calls of `Template::parse` classifying a command:
`strip_prefix('=')` is tried first, then `strip_prefix(":=")`.  Returns the
kind, the number of characters stripped, and the remaining command. -/
def splitMarker (command : List Char) : CodeKind × Nat × List Char :=
  match command with
  | c :: rest =>
    if c = '=' then (.UnsafeExpression, 1, rest)
    else
      match rest with
      | c2 :: rest2 =>
        if c = ':' ∧ c2 = '=' then (.SafeExpression, 2, rest2)
        else (.Statement, 0, command)
      | [] => (.Statement, 0, command)
  | [] => (.Statement, 0, command)

/-- `command.strip_prefix('-')` of `Template::parse`: trim-before flag, number
of characters stripped, remaining command. -/
def stripTrimBefore (command : List Char) : Bool × Nat × List Char :=
  match command with
  | c :: rest => if c = '-' then (true, 1, rest) else (false, 0, command)
  | [] => (false, 0, command)

/-- `command.strip_suffix('-')` of `Template::parse`: trim-after flag and
remaining command. -/
def stripTrimAfter (command : List Char) : Bool × List Char :=
  if command.getLast? = some '-' then (true, command.dropLast) else (false, command)

/-- The per-command work of `Template::parse`'s loop body: classify the
command text found at offset `pos` and produce its `Segment`.  The recorded
range starts after the stripped kind and trim markers and covers the stripped
command, mirroring the source's pointer arithmetic
(`command.as_ptr() - source.as_ptr()`). -/
def parsePart (pos : Nat) (command : List Char) : Segment :=
  let m := splitMarker command
  let tb := stripTrimBefore m.2.2
  let ta := stripTrimAfter tb.2.2
  let trimming : WhitespaceTrimming := ⟨tb.1, ta.1⟩
  let kind : SegmentKind :=
    match m.1 with
    | .SafeExpression => .Expression trimming true
    | .UnsafeExpression => .Expression trimming false
    | .Statement => .Statement trimming
  { kind := kind
    start := pos + m.2.1 + tb.2.1
    stop := pos + m.2.1 + tb.2.1 + ta.2.length }

/-- The loop of `Template::parse` over the pieces that follow each `{{`.
`pos` is the offset of the head piece within the template text; each next
piece starts two characters (the `{{` separator) after the previous one ends.
Within a piece, the text before the first `}}` is the command; the text after
it (when a `}}` is present) is a `Raw` segment; a further `}}` in the same
piece is `UnexpectedEndBrances`.  The `MissingEndBraces` branch mirrors the
source's `command_parts.next().ok_or(Error::MissingEndBraces)`. -/
def parseParts : List (List Char) → Nat → Except Error (List Segment)
  | [], _ => .ok []
  | part :: rest, pos =>
    match splitOn2 '\x7d' '\x7d' part with
    | [] => .error .MissingEndBraces
    | command :: commandRest =>
      let seg := parsePart pos command
      match commandRest with
      | [] =>
        match parseParts rest (pos + part.length + 2) with
        | .error e => .error e
        | .ok tail => .ok (seg :: tail)
      | [rawEnd] =>
        let rawPos := pos + command.length + 2
        let rawSeg : Segment := ⟨.Raw, rawPos, rawPos + rawEnd.length⟩
        match parseParts rest (pos + part.length + 2) with
        | .error e => .error e
        | .ok tail => .ok (seg :: rawSeg :: tail)
      | _ :: _ :: _ => .error .UnexpectedEndBrances

/-- `Template::parse` from `src/lib.rs`: split the text on `{{`; the first
piece is a `Raw` segment, the remaining pieces are handled by `parseParts`.
The `[]` branch mirrors the source's `if let Some(raw_start) = parts.next()`
falling through to `Ok` with no segments. -/
def parse (source : List Char) : Except Error (List Segment) :=
  match splitOn2 '\x7b' '\x7b' source with
  | [] => .ok []
  | rawStart :: parts =>
    match parseParts parts (rawStart.length + 2) with
    | .error e => .error e
    | .ok tail => .ok (⟨.Raw, 0, rawStart.length⟩ :: tail)

/-- `&self.source[segment.range]`: the characters of a segment's range. -/
def sliceText (source : List Char) (s : Segment) : List Char :=
  (source.drop s.start).take (s.stop - s.start)

/-- Convenience: the characters of a string literal. -/
def toChars (s : String) : List Char := s.data

/-- Rust's `str::trim_start` (on the ASCII whitespace relevant here). -/
def trimStartL (s : List Char) : List Char := s.dropWhile Char.isWhitespace

/-- Rust's `str::trim_end`. -/
def trimEndL (s : List Char) : List Char := (s.reverse.dropWhile Char.isWhitespace).reverse

/-- Rust's `str::trim`. -/
def trimL (s : List Char) : List Char := trimEndL (trimStartL s)

/-- Modelled from the spec: `budlang::vm::StringLiteralDisplay`, the external
evaluator's renderer for string literals inside generated source (the
evaluator is out of scope per the spec, §1): a double-quoted literal, interior
backslashes and double quotes escaped with a backslash. -/
def stringLiteralDisplay (s : List Char) : List Char :=
  '"' :: (s.flatMap fun c => if c = '"' ∨ c = '\\' then ['\\', c] else [c]) ++ ['"']

/-- The `segments.peek()` test of `ParsedTemplate::to_bud_source`'s `Raw` arm:
does the immediately following segment carry `trim_before`? -/
def nextTrimBefore : List Segment → Bool
  | seg :: _ =>
    match seg.kind with
    | .Statement trimming => trimming.trim_before
    | .Expression trimming _ => trimming.trim_before
    | .Raw => false
  | [] => false

/-- The segment-walking loop of `ParsedTemplate::to_bud_source`, carrying the
source's two mutable flags `trim_next_start` and `is_at_line_start`.  `Raw`
segments with an empty range are skipped; non-empty ones are emitted as string
literals after trimming; `Statement` segments stand on lines of their own;
`Expression` segments join the current concatenation chain, wrapped in the
`encode` native call exactly when `safe` is `false`. -/
def budBody (source : List Char) : List Segment → Bool → Bool → List Char
  | [], _, _ => []
  | seg :: rest, trimNextStart, isAtLineStart =>
    match seg.kind with
    | .Raw =>
      if seg.stop ≤ seg.start then
        budBody source rest trimNextStart isAtLineStart
      else
        let lit0 := sliceText source seg
        let lit1 := if trimNextStart then trimStartL lit0 else lit0
        let lit2 := if nextTrimBefore rest then trimEndL lit1 else lit1
        (if isAtLineStart then toChars "output := output + " else toChars " + ") ++
          stringLiteralDisplay lit2 ++ budBody source rest trimNextStart false
    | .Statement trimming =>
      (if isAtLineStart then [] else ['\n']) ++
        trimL (sliceText source seg) ++ ['\n'] ++
        budBody source rest trimming.trim_after true
    | .Expression trimming safe =>
      let e := trimL (sliceText source seg)
      (if isAtLineStart then toChars "output := output + " else toChars " + ") ++
        (if safe then toChars "((" ++ e ++ toChars ") as String)"
         else toChars "encode((" ++ e ++ toChars ") as String)") ++
        budBody source rest trimming.trim_after false

/-- The `", "`-separated parameter list of `ParsedTemplate::to_bud_source`. -/
def joinParams : List (List Char) → List Char
  | [] => []
  | [p] => p
  | p :: q :: ps => p ++ toChars ", " ++ joinParams (q :: ps)

/-- `ParsedTemplate::to_bud_source` from `src/lib.rs`: one generated function
whose body accumulates `output` and returns it. -/
def to_bud_source (source : List Char) (segments : List Segment)
    (name : List Char) (parameters : List (List Char)) : List Char :=
  toChars "function " ++ name ++ ['('] ++ joinParams parameters ++
    toChars ")\noutput := \"\"\n" ++
    budBody source segments false true ++
    toChars "\noutput\nend"

/-- Parse, then generate: the program text `Configuration::render_with` hands
to the evaluator (`template.parse()?` followed by `to_bud_source`). -/
def budSourceOf (source : List Char) (name : List Char)
    (parameters : List (List Char)) : Option (List Char) :=
  match parse source with
  | .error _ => none
  | .ok segments => some (to_bud_source source segments name parameters)

/-- `NoEncoding`'s `Encoder::encode` from `src/lib.rs`: writes the input
unchanged. -/
def NoEncoding.encode (input : List Char) : List Char := input

/-- The five-entry substitution table of `HtmlEncoding::encode`'s `match`. -/
def htmlEntity (c : Char) : Option (List Char) :=
  if c = '&' then some (toChars "&amp;")
  else if c = '<' then some (toChars "&lt;")
  else if c = '>' then some (toChars "&gt;")
  else if c = '"' then some (toChars "&quot;")
  else if c = Char.ofNat 39 then some (toChars "&#39;")
  else none

/-- The loop of `HtmlEncoding::encode`: the accumulator holds (reversed) the
pending run of characters not yet written, mirroring the source's
`last_byte_written` cursor; on a match the pending run is flushed followed by
the entity, and at the end the remaining run is flushed. -/
def HtmlEncoding.encodeAux : List Char → List Char → List Char
  | [], pending => pending.reverse
  | c :: rest, pending =>
    match htmlEntity c with
    | some entity => pending.reverse ++ entity ++ HtmlEncoding.encodeAux rest []
    | none => HtmlEncoding.encodeAux rest (c :: pending)

/-- `HtmlEncoding`'s `Encoder::encode` from `src/lib.rs`. -/
def HtmlEncoding.encode (input : List Char) : List Char :=
  HtmlEncoding.encodeAux input []

/-- The transform described by the spec's words (§4.5): each of the five
characters replaced by its named entity, every other character copied
verbatim.  Stated for comparison with `HtmlEncoding.encode`. -/
def htmlSubstituteSpec : List Char → List Char
  | [] => []
  | c :: rest =>
    (match htmlEntity c with | some entity => entity | none => [c]) ++
      htmlSubstituteSpec rest

/-- Modelled from the spec: the target expression language's evaluation of a
double-quoted string literal, together with its `as String` cast (§6: the
external evaluator compiles and runs the generated program; a string literal
evaluates to its contents).  Expression forms other than a plain string
literal are not modelled and yield `none`. -/
def evalLiteral (e : List Char) : Option (List Char) :=
  match e with
  | '"' :: rest =>
    if rest.getLast? = some '"' ∧ '"' ∉ rest.dropLast ∧ '\\' ∉ rest.dropLast then
      some rest.dropLast
    else none
  | _ => none

/-- Modelled from the spec: the observable result of the external evaluator
running the program `to_bud_source` generates for these segments (§4.6): the
emitted string-literal and expression chunks are concatenated in order, with
`enc` bound to the `encode` native function, exactly as the generated
`output := output + ...` chains compute.  `Statement` segments (whose text the
evaluator would execute as arbitrary code) and expressions `evalLiteral`
cannot evaluate are not modelled and yield `none`. -/
def renderSegments (enc : List Char → List Char) (source : List Char) :
    List Segment → Bool → Option (List Char)
  | [], _ => some []
  | seg :: rest, trimNextStart =>
    match seg.kind with
    | .Raw =>
      if seg.stop ≤ seg.start then
        renderSegments enc source rest trimNextStart
      else
        let lit0 := sliceText source seg
        let lit1 := if trimNextStart then trimStartL lit0 else lit0
        let lit2 := if nextTrimBefore rest then trimEndL lit1 else lit1
        (renderSegments enc source rest trimNextStart).map (fun out => lit2 ++ out)
    | .Statement _ => none
    | .Expression trimming safe =>
      match evalLiteral (trimL (sliceText source seg)) with
      | none => none
      | some v =>
        let chunk := if safe then v else enc v
        (renderSegments enc source rest trimming.trim_after).map (fun out => chunk ++ out)

/-- Modelled from the spec: `Configuration::render_with` for an empty argument
list.  A parse failure is returned to the caller as `some (.error e)`, exactly
as the source's `template.parse()?` propagates it; a successful render yields
`some (.ok out)`.  `none` covers the executions the source does not convert
into `Error` values: evaluator compile failures and runtime faults, which the
source `.unwrap()`s (a panic), as well as evaluator behavior outside the
fragment `renderSegments` models. -/
def render_with (enc : List Char → List Char) (source : List Char) :
    Option (Except Error (List Char)) :=
  match parse source with
  | .error e => some (.error e)
  | .ok segments =>
    match renderSegments enc source segments false with
    | none => none
    | some out => some (.ok out)

/-- `Configuration` from `src/lib.rs`: an encoding strategy plus the
`auto_trim` flag. -/
structure Configuration where
  encoder : List Char → List Char
  auto_trim : Bool

/-- `Configuration::render` / `render_with`: of the configuration's two
fields, only `encoder` is read (the source's body mentions `self.encoder` and
never `self.auto_trim`). -/
def Configuration.render (cfg : Configuration) (source : List Char) :
    Option (Except Error (List Char)) :=
  render_with cfg.encoder source

/-- `Configuration::for_html` from `src/lib.rs`. -/
def Configuration.for_html : Configuration := ⟨HtmlEncoding.encode, false⟩

/-- `Configuration::default` from `src/lib.rs` (`auto_trim` defaults to
`false`); `Template::render` renders through it. -/
def Configuration.defaultConfig : Configuration := ⟨NoEncoding.encode, false⟩

/-- The characters `Template::parse` strips for each command kind: `=` for an
unescaped (source: "unsafe") expression, `:=` for an escaped (source: "safe")
expression, nothing for a statement. -/
def markOf : CodeKind → List Char
  | .UnsafeExpression => ['=']
  | .SafeExpression => [':', '=']
  | .Statement => []

/-- The characters the trim-marker stripping removed: `-` when the flag was
set, nothing otherwise. -/
def dashOf (b : Bool) : List Char := if b then ['-'] else []

/-- The full original text a segment stands for: a `Raw` segment is its
slice; a code segment is its slice re-wrapped in the markers `{{` `}}`
together with the kind marker (`=` or `:=`) and the trim markers (`-`) that
parsing stripped. -/
def segmentSourceText (source : List Char) (s : Segment) : List Char :=
  match s.kind with
  | .Raw => sliceText source s
  | .Statement t =>
    '\x7b' :: '\x7b' ::
      (dashOf t.trim_before ++ sliceText source s ++ dashOf t.trim_after ++ ['\x7d', '\x7d'])
  | .Expression t safe =>
    '\x7b' :: '\x7b' ::
      ((if safe then [':', '='] else ['=']) ++ dashOf t.trim_before ++
        sliceText source s ++ dashOf t.trim_after ++ ['\x7d', '\x7d'])

/-- Reconstruction of the template from its segments, re-inserting markers,
kind markers and trim markers exactly as parsing removed them. -/
def reconstruct (source : List Char) (segs : List Segment) : List Char :=
  segs.flatMap (segmentSourceText source)

/-- The reconstruction described by the claim's words: only the opening and
closing marker strings are re-inserted around code segments (kind and trim
markers are not).  Stated for comparison with `reconstruct`. -/
def reconstructMarkersOnly (source : List Char) (segs : List Segment) : List Char :=
  segs.flatMap fun s =>
    match s.kind with
    | .Raw => sliceText source s
    | _ => '\x7b' :: '\x7b' :: (sliceText source s ++ ['\x7d', '\x7d'])

/-- Every opening marker has a matching closing marker: each piece following
a `{{` contains a `}}` (so `split` yields at least a command and a trailing
piece for it). -/
def wellDelimited (source : List Char) : Prop :=
  ∀ p ∈ (splitOn2 '\x7b' '\x7b' source).tail, 2 ≤ (splitOn2 '\x7d' '\x7d' p).length

instance (source : List Char) : Decidable (wellDelimited source) :=
  inferInstanceAs (Decidable (∀ p ∈ (splitOn2 '\x7b' '\x7b' source).tail,
    2 ≤ (splitOn2 '\x7d' '\x7d' p).length))

/-- Is this a `Raw` (literal) segment, as opposed to a code segment? -/
def isRawSeg (s : Segment) : Bool :=
  match s.kind with
  | .Raw => true
  | _ => false

/-- Segment kinds strictly alternate between literal and code, starting from
the kind `expectRaw` says. -/
def alternatesFrom (expectRaw : Bool) : List Segment → Bool
  | [] => true
  | s :: rest => (isRawSeg s == expectRaw) && alternatesFrom (!expectRaw) rest

/-- Segment ranges are non-overlapping and strictly increasing: each segment
ends at or before the next begins, and starts strictly before it. -/
def rangesSorted (segs : List Segment) : Prop :=
  List.Chain' (fun s1 s2 => s1.stop ≤ s2.start ∧ s1.start < s2.start) segs

/-- `joinSep a b` undoes `splitOn2 a b`: concatenate the pieces with the
two-character separator between them. -/
def joinSep (a b : Char) : List (List Char) → List Char
  | [] => []
  | [p] => p
  | p :: q :: ps => p ++ a :: b :: joinSep a b (q :: ps)

/-- Parse, then apply the claim's markers-only reconstruction to the
resulting segments. -/
def reconstructionOf (source : List Char) : Option (List Char) :=
  match parse source with
  | .error _ => none
  | .ok segs => some (reconstructMarkersOnly source segs)

lemma splitOn2_ne_nil (a b : Char) (xs : List Char) : splitOn2 a b xs ≠ [] := by
  simp [splitOn2]

lemma splitOn2_length (a b : Char) (xs : List Char) :
    (splitOn2 a b xs).length = (splitOn2' a b xs).2.length + 1 := by
  simp [splitOn2, Nat.add_comm]

lemma joinSep_cons_head (a b : Char) (x : Char) (l : List Char) (ps : List (List Char)) :
    joinSep a b ((x :: l) :: ps) = x :: joinSep a b (l :: ps) := by
  cases ps <;> simp [joinSep]

lemma splitOn2'_join (a b : Char) (xs : List Char) :
    joinSep a b ((splitOn2' a b xs).1 :: (splitOn2' a b xs).2) = xs := by
  induction xs using splitOn2'.induct a b with
  | case1 => simp [splitOn2', joinSep]
  | case2 x => simp [splitOn2', joinSep]
  | case3 x y rest h ih =>
    simp only [splitOn2', if_pos h, joinSep, List.nil_append]
    rw [ih, h.1, h.2]
  | case4 x y rest h ih =>
    simp only [splitOn2', if_neg h]
    rw [joinSep_cons_head, ih]

lemma splitOn2_join (a b : Char) (xs : List Char) :
    joinSep a b (splitOn2 a b xs) = xs :=
  splitOn2'_join a b xs

lemma joinSep_cons_exists (a b : Char) (p : List Char) (ps : List (List Char)) :
    ∃ t, joinSep a b (p :: ps) = p ++ t := by
  cases ps with
  | nil => exact ⟨[], by simp [joinSep]⟩
  | cons q qs => exact ⟨a :: b :: joinSep a b (q :: qs), rfl⟩

lemma joinSep_drop (a b : Char) (p : List Char) (ps : List (List Char)) :
    (joinSep a b (p :: ps)).drop (p.length + 2) = joinSep a b ps := by
  cases ps with
  | nil =>
    simp only [joinSep]
    exact List.drop_eq_nil_of_le (by omega)
  | cons q qs =>
    show (p ++ a :: b :: joinSep a b (q :: qs)).drop (p.length + 2) = _
    rw [show p ++ a :: b :: joinSep a b (q :: qs) = (p ++ [a, b]) ++ joinSep a b (q :: qs) by simp]
    exact List.drop_left' (by simp)

lemma joinSep_eq_flatMap (a b : Char) (p : List Char) (ps : List (List Char)) :
    joinSep a b (p :: ps) = p ++ ps.flatMap (fun q => a :: b :: q) := by
  induction ps generalizing p with
  | nil => simp [joinSep]
  | cons q qs ih =>
    show p ++ a :: b :: joinSep a b (q :: qs) = _
    rw [ih q]
    simp

lemma sliceTextEq (source : List Char) (n : Nat) (mid post : List Char) (k : SegmentKind)
    (h : source.drop n = mid ++ post) :
    sliceText source ⟨k, n, n + mid.length⟩ = mid := by
  simp only [sliceText, Nat.add_sub_cancel_left, h]
  exact List.take_left' rfl

lemma splitMarker_spec (cmd : List Char) :
    cmd = markOf (splitMarker cmd).1 ++ (splitMarker cmd).2.2 ∧
      (splitMarker cmd).2.1 = (markOf (splitMarker cmd).1).length := by
  match cmd with
  | [] => simp [splitMarker, markOf]
  | [c] =>
    by_cases hc : c = '='
    · subst hc; simp [splitMarker, markOf]
    · simp [splitMarker, hc, markOf]
  | c :: c2 :: rest =>
    by_cases hc : c = '='
    · subst hc; simp [splitMarker, markOf]
    · by_cases hc2 : c = ':' ∧ c2 = '='
      · obtain ⟨rfl, rfl⟩ := hc2
        simp [splitMarker, hc, markOf]
      · simp [splitMarker, hc, hc2, markOf]

lemma stripTrimBefore_spec (cmd : List Char) :
    cmd = dashOf (stripTrimBefore cmd).1 ++ (stripTrimBefore cmd).2.2 ∧
      (stripTrimBefore cmd).2.1 = (dashOf (stripTrimBefore cmd).1).length := by
  match cmd with
  | [] => simp [stripTrimBefore, dashOf]
  | c :: rest =>
    by_cases hc : c = '-'
    · subst hc; simp [stripTrimBefore, dashOf]
    · simp [stripTrimBefore, hc, dashOf]

lemma stripTrimAfter_spec (cmd : List Char) :
    cmd = (stripTrimAfter cmd).2 ++ dashOf (stripTrimAfter cmd).1 := by
  by_cases h : cmd.getLast? = some '-'
  · simp only [stripTrimAfter, if_pos h, dashOf, if_pos rfl]
    exact (List.dropLast_append_getLast? _ h).symm
  · simp [stripTrimAfter, h, dashOf]

lemma sliceTextEq' (source : List Char) (s : Segment) (mid post : List Char)
    (h : source.drop s.start = mid ++ post) (hstop : s.stop = s.start + mid.length) :
    sliceText source s = mid := by
  simp only [sliceText, hstop, Nat.add_sub_cancel_left, h]
  exact List.take_left' rfl

lemma parsePart_start (pos : Nat) (C : List Char) :
    (parsePart pos C).start =
      pos + (splitMarker C).2.1 + (stripTrimBefore (splitMarker C).2.2).2.1 := rfl

lemma parsePart_stop (pos : Nat) (C : List Char) :
    (parsePart pos C).stop =
      (parsePart pos C).start +
        (stripTrimAfter (stripTrimBefore (splitMarker C).2.2).2.2).2.length := rfl

lemma parsePart_spec (source : List Char) (pos : Nat) (C post : List Char)
    (h : source.drop pos = C ++ post) :
    segmentSourceText source (parsePart pos C) =
        '\x7b' :: '\x7b' :: (C ++ ['\x7d', '\x7d']) ∧
      isRawSeg (parsePart pos C) = false ∧
      pos ≤ (parsePart pos C).start ∧
      (parsePart pos C).start ≤ (parsePart pos C).stop ∧
      (parsePart pos C).stop ≤ pos + C.length := by
  obtain ⟨hC1, hd1⟩ := splitMarker_spec C
  obtain ⟨hC2, hd2⟩ := stripTrimBefore_spec (splitMarker C).2.2
  have hC3 := stripTrimAfter_spec (stripTrimBefore (splitMarker C).2.2).2.2
  have hClen : C.length =
      (splitMarker C).2.1 + (stripTrimBefore (splitMarker C).2.2).2.1 +
        ((stripTrimAfter (stripTrimBefore (splitMarker C).2.2).2.2).2.length +
          (dashOf (stripTrimAfter (stripTrimBefore (splitMarker C).2.2).2.2).1).length) := by
    conv_lhs => rw [hC1]
    rw [hd1, hd2]
    conv_lhs => rw [hC2]
    conv_lhs => rw [hC3]
    simp [List.length_append]
    omega
  have hdec : source.drop (parsePart pos C).start =
      (stripTrimAfter (stripTrimBefore (splitMarker C).2.2).2.2).2 ++
        (dashOf (stripTrimAfter (stripTrimBefore (splitMarker C).2.2).2.2).1 ++ post) := by
    rw [parsePart_start]
    have hsplit : C ++ post =
        ((markOf (splitMarker C).1 ++ dashOf (stripTrimBefore (splitMarker C).2.2).1) ++
          ((stripTrimAfter (stripTrimBefore (splitMarker C).2.2).2.2).2 ++
            (dashOf (stripTrimAfter (stripTrimBefore (splitMarker C).2.2).2.2).1 ++ post))) := by
      conv_lhs => rw [hC1]
      conv_lhs => rw [hC2]
      conv_lhs => rw [hC3]
      simp [List.append_assoc]
    have hdd : source.drop (pos + (splitMarker C).2.1 +
        (stripTrimBefore (splitMarker C).2.2).2.1) =
        (source.drop pos).drop ((splitMarker C).2.1 +
          (stripTrimBefore (splitMarker C).2.2).2.1) := by
      rw [List.drop_drop]
      congr 1
      omega
    rw [hdd, h, hsplit]
    exact List.drop_left' (by simp [hd1, hd2])
  have hslice : sliceText source (parsePart pos C) =
      (stripTrimAfter (stripTrimBefore (splitMarker C).2.2).2.2).2 :=
    sliceTextEq' source _ _ _ hdec (parsePart_stop pos C)
  refine ⟨?_, ?_, ?_, ?_, ?_⟩
  · rcases hk : (splitMarker C).1 with _ | _ | _
    · have hkind : (parsePart pos C).kind =
          .Expression ⟨(stripTrimBefore (splitMarker C).2.2).1,
            (stripTrimAfter (stripTrimBefore (splitMarker C).2.2).2.2).1⟩ true := by
        simp [parsePart, hk]
      simp only [segmentSourceText, hkind, hslice, if_pos rfl]
      have : markOf (splitMarker C).1 = [':', '='] := by rw [hk]; rfl
      conv_rhs => rw [hC1]
      conv_rhs => rw [hC2]
      conv_rhs => rw [hC3]
      rw [this]
      simp [List.append_assoc]
    · have hkind : (parsePart pos C).kind =
          .Expression ⟨(stripTrimBefore (splitMarker C).2.2).1,
            (stripTrimAfter (stripTrimBefore (splitMarker C).2.2).2.2).1⟩ false := by
        simp [parsePart, hk]
      simp only [segmentSourceText, hkind, hslice]
      have : markOf (splitMarker C).1 = ['='] := by rw [hk]; rfl
      conv_rhs => rw [hC1]
      conv_rhs => rw [hC2]
      conv_rhs => rw [hC3]
      rw [this]
      simp [List.append_assoc]
    · have hkind : (parsePart pos C).kind =
          .Statement ⟨(stripTrimBefore (splitMarker C).2.2).1,
            (stripTrimAfter (stripTrimBefore (splitMarker C).2.2).2.2).1⟩ := by
        simp [parsePart, hk]
      simp only [segmentSourceText, hkind, hslice]
      have : markOf (splitMarker C).1 = [] := by rw [hk]; rfl
      conv_rhs => rw [hC1]
      conv_rhs => rw [hC2]
      conv_rhs => rw [hC3]
      rw [this]
      simp [List.append_assoc]
  · rcases hk : (splitMarker C).1 with _ | _ | _ <;>
      simp [isRawSeg, parsePart, hk]
  · rw [parsePart_start]; omega
  · rw [parsePart_stop]; omega
  · rw [parsePart_stop, parsePart_start]; omega

lemma parseParts_ok_spec (source : List Char) (parts : List (List Char)) :
    ∀ (pos : Nat) (segs : List Segment),
      parseParts parts pos = .ok segs →
      (∀ p ∈ parts, 2 ≤ (splitOn2 '\x7d' '\x7d' p).length) →
      source.drop pos = joinSep '\x7b' '\x7b' parts →
      segs.flatMap (segmentSourceText source) =
          parts.flatMap (fun p => '\x7b' :: '\x7b' :: p) ∧
        alternatesFrom false segs = true ∧
        (∀ s ∈ segs, pos ≤ s.start ∧ s.start ≤ s.stop) ∧
        rangesSorted segs := by
  induction parts with
  | nil =>
    intro pos segs hok _ _
    simp only [parseParts] at hok
    cases hok
    simp [alternatesFrom, rangesSorted]
  | cons part rest ih =>
    intro pos segs hok hwd hdrop
    rcases hCR : splitOn2 '\x7d' '\x7d' part with _ | ⟨C, R⟩
    · exact absurd hCR (splitOn2_ne_nil _ _ _)
    have hpieces : 2 ≤ (splitOn2 '\x7d' '\x7d' part).length :=
      hwd part (List.mem_cons_self _ _)
    rw [hCR] at hpieces
    simp only [parseParts, hCR] at hok
    rcases R with _ | ⟨rawEnd, R2⟩
    · simp at hpieces
    rcases R2 with _ | ⟨r2, R3⟩
    · -- the command piece is followed by exactly one raw piece
      rcases hrec : parseParts rest (pos + part.length + 2) with e | tail
      · rw [hrec] at hok; cases hok
      rw [hrec] at hok
      cases hok
      -- decompositions
      have hjoinPart : C ++ '\x7d' :: '\x7d' :: rawEnd = part := by
        have hjp := splitOn2_join '\x7d' '\x7d' part
        rw [hCR] at hjp
        simpa [joinSep] using hjp
      have hlenPart : part.length = C.length + 2 + rawEnd.length := by
        rw [← hjoinPart]; simp; omega
      obtain ⟨t0, ht0⟩ := joinSep_cons_exists '\x7b' '\x7b' part rest
      have hdropPos : source.drop pos = part ++ t0 := by rw [hdrop, ht0]
      have hdropC : source.drop pos = C ++ ('\x7d' :: '\x7d' :: (rawEnd ++ t0)) := by
        rw [hdropPos, ← hjoinPart]; simp
      have hdropNext : source.drop (pos + part.length + 2) =
          joinSep '\x7b' '\x7b' rest := by
        have h1 : source.drop (pos + part.length + 2) =
            (source.drop pos).drop (part.length + 2) := by
          rw [List.drop_drop]; congr 1
        rw [h1, hdrop]
        exact joinSep_drop _ _ _ _
      have hdropRaw : source.drop (pos + C.length + 2) = rawEnd ++ t0 := by
        have h1 : source.drop (pos + C.length + 2) =
            (source.drop pos).drop (C.length + 2) := by
          rw [List.drop_drop]; congr 1
        rw [h1, hdropC,
          show C ++ '\x7d' :: '\x7d' :: (rawEnd ++ t0) =
            (C ++ ['\x7d', '\x7d']) ++ (rawEnd ++ t0) by simp]
        exact List.drop_left' (by simp)
      obtain ⟨hseg1, hseg2, hseg3, hseg4, hseg5⟩ :=
        parsePart_spec source pos C ('\x7d' :: '\x7d' :: (rawEnd ++ t0)) hdropC
      have hrawslice : sliceText source
          ⟨.Raw, pos + C.length + 2, pos + C.length + 2 + rawEnd.length⟩ = rawEnd :=
        sliceTextEq' source _ rawEnd t0 hdropRaw rfl
      obtain ⟨ihA, ihB, ihC, ihD⟩ :=
        ih (pos + part.length + 2) tail hrec
          (fun p hp => hwd p (List.mem_cons_of_mem _ hp)) hdropNext
      refine ⟨?_, ?_, ?_, ?_⟩
      · -- reconstruction
        simp only [List.flatMap_cons, segmentSourceText, hrawslice] at *
        rw [hseg1, ihA]
        rw [← hjoinPart]
        simp [List.append_assoc]
      · -- alternation
        simp only [alternatesFrom, hseg2, Bool.not_false, Bool.not_true]
        simp only [isRawSeg]
        simpa using ihB
      · -- lower bounds
        intro s hs
        simp only [List.mem_cons] at hs
        rcases hs with hs | hs | hs
        · subst hs; exact ⟨hseg3, hseg4⟩
        · subst hs
          constructor
          · show pos ≤ pos + C.length + 2
            omega
          · show pos + C.length + 2 ≤ pos + C.length + 2 + rawEnd.length
            omega
        · have := ihC s hs
          constructor
          · omega
          · exact this.2
      · -- sortedness
        have hR1 : (parsePart pos C).stop ≤ pos + C.length + 2 ∧
            (parsePart pos C).start < pos + C.length + 2 := by omega
        rw [rangesSorted, List.chain'_cons]
        refine ⟨⟨by simpa using hR1.1, by simpa using hR1.2⟩, ?_⟩
        rw [List.chain'_cons']
        constructor
        · intro y hy
          have hymem : y ∈ tail := List.mem_of_mem_head? hy
          have hb := (ihC y hymem).1
          constructor
          · simp; omega
          · simp; omega
        · exact ihD
    · -- a further `}}` before the next `{{`
      cases hok

lemma parse_ok_spec (source : List Char) (segs : List Segment)
    (hwd : wellDelimited source) (hok : parse source = .ok segs) :
    reconstruct source segs = source ∧
      segs ≠ [] ∧
      alternatesFrom true segs = true ∧
      rangesSorted segs ∧
      (∀ s ∈ segs, s.start ≤ s.stop) := by
  rcases hsp : splitOn2 '\x7b' '\x7b' source with _ | ⟨RS, parts⟩
  · exact absurd hsp (splitOn2_ne_nil _ _ _)
  have hsrc : joinSep '\x7b' '\x7b' (RS :: parts) = source := by
    have := splitOn2_join '\x7b' '\x7b' source
    rwa [hsp] at this
  simp only [parse, hsp] at hok
  rcases hpp : parseParts parts (RS.length + 2) with e | tail <;> rw [hpp] at hok
  · cases hok
  cases hok
  have hdrop : source.drop (RS.length + 2) = joinSep '\x7b' '\x7b' parts := by
    conv_lhs => rw [← hsrc]
    exact joinSep_drop _ _ _ _
  have hwd' : ∀ p ∈ parts, 2 ≤ (splitOn2 '\x7d' '\x7d' p).length := by
    intro p hp
    exact hwd p (by rw [hsp]; exact hp)
  obtain ⟨mA, mB, mC, mD⟩ :=
    parseParts_ok_spec source parts (RS.length + 2) tail hpp hwd' hdrop
  obtain ⟨t0, ht0⟩ := joinSep_cons_exists '\x7b' '\x7b' RS parts
  have hRS : sliceText source ⟨.Raw, 0, RS.length⟩ = RS := by
    refine sliceTextEq' source _ RS t0 ?_ ?_
    · rw [List.drop_zero, ← hsrc, ht0]
    · show RS.length = 0 + RS.length
      omega
  refine ⟨?_, by simp, ?_, ?_, ?_⟩
  · show (⟨.Raw, 0, RS.length⟩ :: tail).flatMap (segmentSourceText source) = source
    rw [List.flatMap_cons]
    have h0 : segmentSourceText source ⟨.Raw, 0, RS.length⟩ = RS := by
      simp only [segmentSourceText]; exact hRS
    rw [h0, mA, ← hsrc, joinSep_eq_flatMap]
  · simp only [alternatesFrom, isRawSeg]
    simpa using mB
  · rw [rangesSorted, List.chain'_cons']
    constructor
    · intro y hy
      have hymem : y ∈ tail := List.mem_of_mem_head? hy
      have hb := (mC y hymem).1
      constructor
      · show RS.length ≤ y.start
        omega
      · show 0 < y.start
        omega
    · exact mD
  · intro s hs
    simp only [List.mem_cons] at hs
    rcases hs with rfl | hs
    · show 0 ≤ RS.length
      omega
    · exact (mC s hs).2

lemma parseParts_error_eq (parts : List (List Char)) :
    ∀ pos e, parseParts parts pos = .error e → e = .UnexpectedEndBrances := by
  induction parts with
  | nil => intro pos e h; simp [parseParts] at h
  | cons part rest ih =>
    intro pos e h
    rcases hCR : splitOn2 '\x7d' '\x7d' part with _ | ⟨C, R⟩
    · exact absurd hCR (splitOn2_ne_nil _ _ _)
    simp only [parseParts, hCR] at h
    rcases R with _ | ⟨rawEnd, R2⟩
    · rcases hrec : parseParts rest (pos + part.length + 2) with e2 | tail <;>
        rw [hrec] at h
      · have he := Except.error.inj h
        subst he
        exact ih _ _ hrec
      · cases h
    · rcases R2 with _ | ⟨r2, R3⟩
      · rcases hrec : parseParts rest (pos + part.length + 2) with e2 | tail <;>
          rw [hrec] at h
        · have he := Except.error.inj h
          subst he
          exact ih _ _ hrec
        · cases h
      · exact (Except.error.inj h).symm

lemma parseParts_unexpected_iff (parts : List (List Char)) :
    ∀ pos, parseParts parts pos = .error .UnexpectedEndBrances ↔
      ∃ p ∈ parts, 3 ≤ (splitOn2 '\x7d' '\x7d' p).length := by
  induction parts with
  | nil => intro pos; simp [parseParts]
  | cons part rest ih =>
    intro pos
    rcases hCR : splitOn2 '\x7d' '\x7d' part with _ | ⟨C, R⟩
    · exact absurd hCR (splitOn2_ne_nil _ _ _)
    constructor
    · intro h
      simp only [parseParts, hCR] at h
      rcases R with _ | ⟨rawEnd, R2⟩
      · rcases hrec : parseParts rest (pos + part.length + 2) with e2 | tail <;>
          rw [hrec] at h
        · have he := Except.error.inj h
          subst he
          obtain ⟨p, hp, h3⟩ := (ih _).mp hrec
          exact ⟨p, List.mem_cons_of_mem _ hp, h3⟩
        · cases h
      · rcases R2 with _ | ⟨r2, R3⟩
        · rcases hrec : parseParts rest (pos + part.length + 2) with e2 | tail <;>
            rw [hrec] at h
          · have he := Except.error.inj h
            subst he
            obtain ⟨p, hp, h3⟩ := (ih _).mp hrec
            exact ⟨p, List.mem_cons_of_mem _ hp, h3⟩
          · cases h
        · refine ⟨part, List.mem_cons_self _ _, ?_⟩
          rw [hCR]
          simp
    · intro hex
      obtain ⟨p, hp, h3⟩ := hex
      simp only [List.mem_cons] at hp
      simp only [parseParts, hCR]
      rcases R with _ | ⟨rawEnd, R2⟩
      · rcases hp with rfl | hp
        · rw [hCR] at h3; simp at h3
        · have hrec := (ih (pos + part.length + 2)).mpr ⟨p, hp, h3⟩
          rw [hrec]
      · rcases R2 with _ | ⟨r2, R3⟩
        · rcases hp with rfl | hp
          · rw [hCR] at h3; simp at h3
          · have hrec := (ih (pos + part.length + 2)).mpr ⟨p, hp, h3⟩
            rw [hrec]
        · rfl

lemma parse_error_eq (source : List Char) (e : Error)
    (h : parse source = .error e) : e = .UnexpectedEndBrances := by
  rcases hsp : splitOn2 '\x7b' '\x7b' source with _ | ⟨RS, parts⟩
  · exact absurd hsp (splitOn2_ne_nil _ _ _)
  simp only [parse, hsp] at h
  rcases hpp : parseParts parts (RS.length + 2) with e2 | tail <;> rw [hpp] at h
  · have he := Except.error.inj h
    subst he
    exact parseParts_error_eq parts _ _ hpp
  · cases h

lemma parse_unexpected_iff (source : List Char) :
    parse source = .error .UnexpectedEndBrances ↔
      ∃ p ∈ (splitOn2 '\x7b' '\x7b' source).tail,
        3 ≤ (splitOn2 '\x7d' '\x7d' p).length := by
  rcases hsp : splitOn2 '\x7b' '\x7b' source with _ | ⟨RS, parts⟩
  · exact absurd hsp (splitOn2_ne_nil _ _ _)
  simp only [List.tail_cons, parse, hsp]
  rcases hpp : parseParts parts (RS.length + 2) with e2 | tail
  · constructor
    · intro h
      have he : e2 = Error.UnexpectedEndBrances := Except.error.inj h
      subst he
      exact (parseParts_unexpected_iff parts _).mp hpp
    · intro _
      have he2 := parseParts_error_eq parts _ _ hpp
      subst he2
      rfl
  · constructor
    · intro h
      exact absurd h (by simp)
    · intro hex
      have hcontr := (parseParts_unexpected_iff parts (RS.length + 2)).mpr hex
      rw [hpp] at hcontr
      cases hcontr

lemma encodeAux_eq (s : List Char) :
    ∀ pending, HtmlEncoding.encodeAux s pending =
      pending.reverse ++ htmlSubstituteSpec s := by
  induction s with
  | nil => intro pending; simp [HtmlEncoding.encodeAux, htmlSubstituteSpec]
  | cons c rest ih =>
    intro pending
    rcases h : htmlEntity c with _ | entity
    · simp only [HtmlEncoding.encodeAux, htmlSubstituteSpec, h]
      rw [ih]
      simp
    · simp only [HtmlEncoding.encodeAux, htmlSubstituteSpec, h]
      rw [ih]
      simp

/-- C1: rendering the template `{{:= "unsafe & not encoded" }}/{{= "safe &
encoded" }}` with no arguments under the HTML-escaping strategy returns
exactly `unsafe & not encoded/safe &amp; encoded`: the `:=` segment's string
conversion is concatenated without encoding, while the `=` segment is passed
through the strategy's native `encode` call before concatenation — both
visible in the generated program text, whose only `encode` call wraps the `=`
expression. -/
theorem c1_worked_example_html_escaping :
    Configuration.for_html.render
        (toChars "\x7b\x7b:= \"unsafe & not encoded\" \x7d\x7d/\x7b\x7b= \"safe & encoded\" \x7d\x7d") =
      some (.ok (toChars "unsafe & not encoded/safe &amp; encoded")) ∧
      budSourceOf
          (toChars "\x7b\x7b:= \"unsafe & not encoded\" \x7d\x7d/\x7b\x7b= \"safe & encoded\" \x7d\x7d")
          (toChars "render") [] =
        some (toChars "function render()\noutput := \"\"\noutput := output + ((\"unsafe & not encoded\") as String) + \"/\" + encode((\"safe & encoded\") as String)\noutput\nend") :=
  ⟨rfl, rfl⟩

/-- C2: contrary to the claim, a template whose opening marker has no
matching closing marker does not fail: `{{ unclosed` parses successfully
(the unterminated command becomes a statement segment), and no template text
whatsoever can produce the `MissingEndBraces` error — the first piece of a
`}}`-split always exists, so the `ok_or(Error::MissingEndBraces)` guard can
never fire and every parse error is `UnexpectedEndBrances`. -/
theorem c2_missing_end_braces_unreachable :
    parse (toChars "\x7b\x7b unclosed") =
        .ok [⟨.Raw, 0, 0⟩, ⟨.Statement ⟨false, false⟩, 2, 11⟩] ∧
      ∀ (s : List Char) (e : Error), parse s = .error e → e = .UnexpectedEndBrances :=
  ⟨rfl, fun s e h => parse_error_eq s e h⟩

/-- C2 witness: the second conjunct applied at a concretely failing parse. -/
theorem c2_missing_end_braces_unreachable_witness :
    Error.UnexpectedEndBrances = Error.UnexpectedEndBrances :=
  c2_missing_end_braces_unreachable.2 (toChars "\x7b\x7bx\x7d\x7dy\x7d\x7d")
    Error.UnexpectedEndBrances rfl

/-- C3 counterexample: the template `}}` consists of a closing-marker
sequence in literal text outside any command, yet parsing succeeds (one `Raw`
segment) instead of failing with `UnexpectedEndBrances`. -/
theorem c3_counterexample_stray_close_accepted :
    parse (toChars "\x7d\x7d") = .ok [⟨.Raw, 0, 2⟩] := rfl

/-- C3 amended: parsing fails with `UnexpectedEndBrances` exactly when a
second `}}` occurs in some piece that follows an opening marker (that is,
when a `}}` appears in the literal text between a command's closing marker
and the next opening marker or the end of input); a `}}` occurring before the
first `{{` is accepted as literal text. -/
theorem c3_unexpected_end_braces_iff (source : List Char) :
    parse source = .error .UnexpectedEndBrances ↔
      ∃ p ∈ (splitOn2 '\x7b' '\x7b' source).tail,
        3 ≤ (splitOn2 '\x7d' '\x7d' p).length :=
  parse_unexpected_iff source

/-- C3 witness: the amended characterization applied at `{{x}}y}}`. -/
theorem c3_unexpected_end_braces_iff_witness :
    parse (toChars "\x7b\x7bx\x7d\x7dy\x7d\x7d") = .error .UnexpectedEndBrances :=
  (c3_unexpected_end_braces_iff (toChars "\x7b\x7bx\x7d\x7dy\x7d\x7d")).mpr
    ⟨toChars "x\x7d\x7dy\x7d\x7d", by decide, by decide⟩

/-- C4 counterexample: the claim has the encoding mapping backwards.  For the
escaped expression (prefix `:=`) `{{:= "&" }}` the generator emits no
`encode` call and the HTML strategy leaves `&` untouched, while for the
unescaped expression (prefix `=`) `{{= "&" }}` the `encode` call is emitted
and the render yields `&amp;`. -/
theorem c4_counterexample_encoding_swapped :
    budSourceOf (toChars "\x7b\x7b:= \"&\" \x7d\x7d") (toChars "render") [] =
        some (toChars "function render()\noutput := \"\"\noutput := output + ((\"&\") as String)\noutput\nend") ∧
      budSourceOf (toChars "\x7b\x7b= \"&\" \x7d\x7d") (toChars "render") [] =
        some (toChars "function render()\noutput := \"\"\noutput := output + encode((\"&\") as String)\noutput\nend") ∧
      Configuration.for_html.render (toChars "\x7b\x7b:= \"&\" \x7d\x7d") =
        some (.ok (toChars "&")) ∧
      Configuration.for_html.render (toChars "\x7b\x7b= \"&\" \x7d\x7d") =
        some (.ok (toChars "&amp;")) ∧
      toChars "&" ≠ toChars "&amp;" :=
  ⟨rfl, rfl, rfl, rfl, by decide⟩

/-- C4 amended: commands are classified by prefix with `=` checked first
(`=` → the source's unsafe expression, `:=` → its safe expression, neither →
statement), and the code generator applies the Encoding Strategy's `encode`
call to the result of an unescaped expression (prefix `=`, `safe = false`)
before concatenation, while the raw string conversion of an escaped
expression (prefix `:=`, `safe = true`) is concatenated with no encoding. -/
theorem c4_generator_applies_encoding_to_eq_marker :
    (∀ cmd : List Char, splitMarker ('=' :: cmd) = (.UnsafeExpression, 1, cmd)) ∧
      (∀ cmd : List Char, splitMarker (':' :: '=' :: cmd) = (.SafeExpression, 2, cmd)) ∧
      ∀ (source : List Char) (t : WhitespaceTrimming) (safe : Bool) (a b : Nat)
        (rest : List Segment) (tns las : Bool),
        budBody source (⟨.Expression t safe, a, b⟩ :: rest) tns las =
          (if las then toChars "output := output + " else toChars " + ") ++
            (if safe then
              toChars "((" ++ trimL (sliceText source ⟨.Expression t safe, a, b⟩) ++
                toChars ") as String)"
            else
              toChars "encode((" ++ trimL (sliceText source ⟨.Expression t safe, a, b⟩) ++
                toChars ") as String)") ++
            budBody source rest t.trim_after false :=
  ⟨fun _ => rfl, fun _ => rfl, fun _ _ _ _ _ _ _ _ => rfl⟩

/-- C5 counterexample: for `{{= x }}` (which parses successfully),
re-inserting only the opening and closing marker strings around the code
segment reconstructs `{{ x }}`, not the original text — the stripped `=`
prefix is lost, so the claimed reconstruction fails. -/
theorem c5_counterexample_markers_only_reconstruction :
    reconstructionOf (toChars "\x7b\x7b= x \x7d\x7d") =
        some (toChars "\x7b\x7b x \x7d\x7d") ∧
      toChars "\x7b\x7b x \x7d\x7d" ≠ toChars "\x7b\x7b= x \x7d\x7d" :=
  ⟨rfl, by decide⟩

/-- C5 amended: for every template text in which every opening marker has a
matching closing marker and which parses successfully, concatenating the
segments' underlying source text in order — re-inserting the marker strings
and each code segment's stripped kind prefix (`=` or `:=`) and trim markers
(`-`) exactly as removed — yields the original template text; and the
segments' ranges are non-overlapping and strictly increasing, each segment
starting no earlier than it ends. -/
theorem c5_reconstruction_with_all_markers (source : List Char)
    (segs : List Segment) (hwd : wellDelimited source)
    (hok : parse source = .ok segs) :
    reconstruct source segs = source ∧ rangesSorted segs ∧
      ∀ s ∈ segs, s.start ≤ s.stop :=
  ⟨(parse_ok_spec source segs hwd hok).1,
    (parse_ok_spec source segs hwd hok).2.2.2.1,
    (parse_ok_spec source segs hwd hok).2.2.2.2⟩

/-- C5 witness: the amended reconstruction at `a{{=- x -}}b{{:= y }}c`. -/
theorem c5_reconstruction_with_all_markers_witness :
    reconstruct (toChars "a\x7b\x7b=- x -\x7d\x7db\x7b\x7b:= y \x7d\x7dc")
        [⟨.Raw, 0, 1⟩, ⟨.Expression ⟨true, true⟩ false, 5, 8⟩, ⟨.Raw, 11, 12⟩,
          ⟨.Expression ⟨false, false⟩ true, 16, 19⟩, ⟨.Raw, 21, 22⟩] =
        toChars "a\x7b\x7b=- x -\x7d\x7db\x7b\x7b:= y \x7d\x7dc" ∧
      rangesSorted
        [⟨.Raw, 0, 1⟩, ⟨.Expression ⟨true, true⟩ false, 5, 8⟩, ⟨.Raw, 11, 12⟩,
          ⟨.Expression ⟨false, false⟩ true, 16, 19⟩, ⟨.Raw, 21, 22⟩] ∧
      ∀ s ∈ ([⟨.Raw, 0, 1⟩, ⟨.Expression ⟨true, true⟩ false, 5, 8⟩, ⟨.Raw, 11, 12⟩,
          ⟨.Expression ⟨false, false⟩ true, 16, 19⟩, ⟨.Raw, 21, 22⟩] : List Segment),
        s.start ≤ s.stop :=
  c5_reconstruction_with_all_markers
    (toChars "a\x7b\x7b=- x -\x7d\x7db\x7b\x7b:= y \x7d\x7dc") _ (by decide) rfl

/-- C6: the four one-expression trim templates render exactly as claimed
(` {{= "a" }} ` → `" a "`, ` {{=- "a" -}} ` → `"a"`, ` {{=- "a" }} ` →
`"a "`, ` {{= "a" -}} ` → `" a"`), and in general the generator emits a
non-empty `Raw` segment with its leading whitespace stripped exactly when the
carried trim-following flag of the preceding code segment is set and its
trailing whitespace stripped exactly when the immediately following segment
is a code segment with the trim-preceding flag, leaving every other segment's
emission untouched. -/
theorem c6_trim_rules :
    render_with NoEncoding.encode (toChars " \x7b\x7b= \"a\" \x7d\x7d ") =
        some (.ok (toChars " a ")) ∧
      render_with NoEncoding.encode (toChars " \x7b\x7b=- \"a\" -\x7d\x7d ") =
        some (.ok (toChars "a")) ∧
      render_with NoEncoding.encode (toChars " \x7b\x7b=- \"a\" \x7d\x7d ") =
        some (.ok (toChars "a ")) ∧
      render_with NoEncoding.encode (toChars " \x7b\x7b= \"a\" -\x7d\x7d ") =
        some (.ok (toChars " a")) ∧
      ∀ (source : List Char) (a b : Nat) (rest : List Segment) (tns las : Bool),
        a < b →
        budBody source (⟨.Raw, a, b⟩ :: rest) tns las =
          (if las then toChars "output := output + " else toChars " + ") ++
            stringLiteralDisplay
              (if nextTrimBefore rest then
                trimEndL (if tns then trimStartL (sliceText source ⟨.Raw, a, b⟩)
                  else sliceText source ⟨.Raw, a, b⟩)
              else
                (if tns then trimStartL (sliceText source ⟨.Raw, a, b⟩)
                  else sliceText source ⟨.Raw, a, b⟩)) ++
            budBody source rest tns false := by
  refine ⟨rfl, rfl, rfl, rfl, ?_⟩
  intro source a b rest tns las h
  have hne : ¬ ((⟨.Raw, a, b⟩ : Segment).stop ≤ (⟨.Raw, a, b⟩ : Segment).start) := by
    show ¬ (b ≤ a)
    omega
  simp only [budBody, if_neg hne]

/-- C6 witness: the general trim rule instantiated at a one-character
literal. -/
theorem c6_trim_rules_witness :
    budBody (toChars "q") [⟨.Raw, 0, 1⟩] false true =
      (if true then toChars "output := output + " else toChars " + ") ++
        stringLiteralDisplay
          (if nextTrimBefore ([] : List Segment) then
            trimEndL (if false then trimStartL (sliceText (toChars "q") ⟨.Raw, 0, 1⟩)
              else sliceText (toChars "q") ⟨.Raw, 0, 1⟩)
          else
            (if false then trimStartL (sliceText (toChars "q") ⟨.Raw, 0, 1⟩)
              else sliceText (toChars "q") ⟨.Raw, 0, 1⟩)) ++
        budBody (toChars "q") [] false false :=
  c6_trim_rules.2.2.2.2 (toChars "q") 0 1 [] false true (by decide)

/-- C7: the HTML-escaping encoder equals, on every input, the substitution
the spec describes — each of `&`, `<`, `>`, `"`, `'` replaced by `&amp;`,
`&lt;`, `&gt;`, `&quot;`, `&#39;` and every other character copied verbatim —
and encoding `&<>'"unencoded` yields `&amp;&lt;&gt;&#39;&quot;unencoded`. -/
theorem c7_html_escape_substitution :
    (∀ s : List Char, HtmlEncoding.encode s = htmlSubstituteSpec s) ∧
      HtmlEncoding.encode (toChars "&<>" ++ [Char.ofNat 39] ++ toChars "\"unencoded") =
        toChars "&amp;&lt;&gt;&#39;&quot;unencoded" :=
  ⟨fun s => by simpa using encodeAux_eq s [], rfl⟩

/-- C8 counterexample: rendering `Hello, {{= name }}!` with no arguments goes
to the evaluator (the generated function references the undeclared `name`),
whose failure the code `.unwrap()`s — the call neither succeeds nor returns an
`Error` to the caller (in the model, `none`, a panic), contradicting the
claim that evaluator failures are returned as errors. -/
theorem c8_counterexample_fault_not_returned :
    render_with NoEncoding.encode (toChars "Hello, \x7b\x7b= name \x7d\x7d!") = none := rfl

/-- C8 amended: a render call either succeeds with the complete output string
or fails by returning a parse error — `MissingEndBraces` or
`UnexpectedEndBrances` are the only variants `Error` has, so evaluator
compile failures and runtime faults are never returned to the caller; the
source `.unwrap()`s them (a panic) instead. -/
theorem c8_returned_errors_are_parse_errors :
    (∀ (enc : List Char → List Char) (source : List Char) (e : Error),
        render_with enc source = some (.error e) →
        e = .MissingEndBraces ∨ e = .UnexpectedEndBrances) ∧
      render_with NoEncoding.encode (toChars "plain text") =
        some (.ok (toChars "plain text")) :=
  ⟨fun _ _ e _ => by cases e <;> simp, rfl⟩

/-- C8 witness: the amended statement applied at `{{a}}b}}`, whose render
returns the parse error `UnexpectedEndBrances`. -/
theorem c8_returned_errors_are_parse_errors_witness :
    Error.UnexpectedEndBrances = Error.MissingEndBraces ∨
      Error.UnexpectedEndBrances = Error.UnexpectedEndBrances :=
  c8_returned_errors_are_parse_errors.1 NoEncoding.encode
    (toChars "\x7b\x7ba\x7d\x7db\x7d\x7d") Error.UnexpectedEndBrances rfl

/-- C9: two render calls that differ only in the configuration's `auto_trim`
flag produce identical results — the flag is stored but never read by
parsing, trimming or generation. -/
theorem c9_auto_trim_never_consulted :
    ∀ (enc : List Char → List Char) (a1 a2 : Bool) (source : List Char),
      Configuration.render ⟨enc, a1⟩ source = Configuration.render ⟨enc, a2⟩ source :=
  fun _ _ _ _ => rfl

/-- C10 counterexample: `{{x{{y}}` parses successfully, but its segments put
the two statement segments side by side (the unterminated command `x`
contributes no trailing `Raw` segment), so segment kinds do not strictly
alternate. -/
theorem c10_counterexample_adjacent_code_segments :
    parse (toChars "\x7b\x7bx\x7b\x7by\x7d\x7d") =
        .ok [⟨.Raw, 0, 0⟩, ⟨.Statement ⟨false, false⟩, 2, 3⟩,
          ⟨.Statement ⟨false, false⟩, 5, 6⟩, ⟨.Raw, 8, 8⟩] ∧
      alternatesFrom true
        [⟨.Raw, 0, 0⟩, ⟨.Statement ⟨false, false⟩, 2, 3⟩,
          ⟨.Statement ⟨false, false⟩, 5, 6⟩, ⟨.Raw, 8, 8⟩] = false :=
  ⟨rfl, rfl⟩

/-- C10 amended: for every template text in which every opening marker has a
matching closing marker and which parses successfully, the segment sequence
is non-empty, begins with a `Raw` segment, and strictly alternates between
`Raw` and code segments (`Raw` segments may have empty ranges). -/
theorem c10_alternation_when_well_delimited (source : List Char)
    (segs : List Segment) (hwd : wellDelimited source)
    (hok : parse source = .ok segs) :
    segs ≠ [] ∧ alternatesFrom true segs = true :=
  ⟨(parse_ok_spec source segs hwd hok).2.1,
    (parse_ok_spec source segs hwd hok).2.2.1⟩

/-- C10 witness: the amended alternation at `a{{x}}b`. -/
theorem c10_alternation_when_well_delimited_witness :
    ([⟨.Raw, 0, 1⟩, ⟨.Statement ⟨false, false⟩, 3, 4⟩, ⟨.Raw, 6, 7⟩] :
        List Segment) ≠ [] ∧
      alternatesFrom true
        [⟨.Raw, 0, 1⟩, ⟨.Statement ⟨false, false⟩, 3, 4⟩, ⟨.Raw, 6, 7⟩] = true :=
  c10_alternation_when_well_delimited (toChars "a\x7b\x7bx\x7d\x7db") _
    (by decide) rfl
